import Mathlib

/-!
Verification development for the llm-cli streaming client (src/index.mjs).

The heart of the program is the SSE event handler `onParse` installed in
`OpenAIStream` (src/index.mjs lines 271-325) together with the surrounding
mutable state (`counter`, `data`, `response`) and the `ReadableStream`
controller, plus the non-streaming branch of `main` (lines 139-152), the
`logger` closure (lines 87-97) and `unwrapMarkdown` (lines 243-252).

JSON payloads are embedded as parse results: a payload string is either the
literal sentinel "[DONE]", a string that `JSON.parse` accepts (carrying the
parsed value), or a string it rejects.  JavaScript property access is
embedded faithfully: accessing a property of `undefined` or `null` throws a
TypeError, accessing a missing property of an object yields `undefined`,
indexing a string yields its first character, optional chaining
short-circuits on nullish values, and `x || ""` tests JS truthiness.
-/

namespace LlmCli

/-- JSON values as produced by `JSON.parse` (numbers restricted to integers,
which is all the claims exercise). -/
inductive Json where
  | null : Json
  | bool (b : Bool) : Json
  | num (n : Int) : Json
  | str (s : String) : Json
  | arr (elems : List Json) : Json
  | obj (fields : List (String × Json)) : Json
  deriving Repr

/-- JavaScript values reachable in the handler: a JSON value or `undefined`. -/
inductive JSVal where
  | undef : JSVal
  | val (j : Json) : JSVal
  deriving Repr

/-- Field lookup in a parsed JSON object (keys are unique in a parse result). -/
def lookupField : List (String × Json) → String → Option Json
  | [], _ => none
  | (k, v) :: rest, key => if k = key then some v else lookupField rest key

/-- Property access `j.p` on a defined, non-null value: objects look the key
up, every other value has none of the properties the handler reads. -/
def jsGetOwn : Json → String → JSVal
  | Json.obj fields, key =>
      match lookupField fields key with
      | none => JSVal.undef
      | some v => JSVal.val v
  | _, _ => JSVal.undef

/-- Property access `v.p`: throws a TypeError on `undefined` and `null`. -/
def jsGetField : JSVal → String → Except Unit JSVal
  | JSVal.undef, _ => Except.error ()
  | JSVal.val Json.null, _ => Except.error ()
  | JSVal.val j, key => Except.ok (jsGetOwn j key)

/-- Index access `v[0]`: throws on nullish `v`; arrays yield their head,
strings their first character, objects their "0" field, other primitives
`undefined`. -/
def jsIndex0 : JSVal → Except Unit JSVal
  | JSVal.undef => Except.error ()
  | JSVal.val Json.null => Except.error ()
  | JSVal.val (Json.arr elems) =>
      match elems with
      | [] => Except.ok JSVal.undef
      | x :: _ => Except.ok (JSVal.val x)
  | JSVal.val (Json.str s) =>
      match s.data with
      | [] => Except.ok JSVal.undef
      | c :: _ => Except.ok (JSVal.val (Json.str (String.mk [c])))
  | JSVal.val (Json.obj fields) =>
      match lookupField fields "0" with
      | none => Except.ok JSVal.undef
      | some v => Except.ok (JSVal.val v)
  | JSVal.val _ => Except.ok JSVal.undef

/-- Optional chaining `v?.p`: `undefined` on nullish `v`, plain access
otherwise (which cannot throw on a defined non-null value). -/
def jsOptField : JSVal → String → JSVal
  | JSVal.undef, _ => JSVal.undef
  | JSVal.val Json.null, _ => JSVal.undef
  | JSVal.val j, key => jsGetOwn j key

/-- JavaScript truthiness of a value. -/
def jsTruthy : JSVal → Bool
  | JSVal.undef => false
  | JSVal.val Json.null => false
  | JSVal.val (Json.bool b) => b
  | JSVal.val (Json.num n) => n != 0
  | JSVal.val (Json.str s) => s != ""
  | JSVal.val (Json.arr _) => true
  | JSVal.val (Json.obj _) => true

mutual

/-- String coercion `String(j)` / implicit `+` coercion of a JSON value
(arrays join their elements with commas, rendering null elements empty). -/
def jsToString : Json → String
  | Json.null => "null"
  | Json.bool b => cond b "true" "false"
  | Json.num n => toString n
  | Json.str s => s
  | Json.obj _ => "[object Object]"
  | Json.arr elems => jsArrString elems

/-- Comma join of array elements, as `Array.prototype.join` renders them. -/
def jsArrString : List Json → String
  | [] => ""
  | [e] => jsElemString e
  | e :: rest => jsElemString e ++ "," ++ jsArrString rest

/-- An array element renders as empty when null, else as its coercion. -/
def jsElemString : Json → String
  | Json.null => ""
  | j => jsToString j

end

/-- String coercion of a JS value (`undefined` renders as "undefined"); the
string case is split out so that it reduces without entering the mutual
recursion. -/
def jsValToString : JSVal → String
  | JSVal.undef => "undefined"
  | JSVal.val (Json.str s) => s
  | JSVal.val j => jsToString j

/-- The test `(text.match (regex for a newline) || []).length` is nonzero
exactly when the string contains a newline character. -/
def hasNewline (s : String) : Bool := s.data.contains '\n'

/-- Embedding of `json.choices[0].delta?.content` (src/index.mjs line 302):
each step may throw a TypeError, the optional chain never does. -/
def extractContent (j : Json) : Except Unit JSVal :=
  match jsGetField (JSVal.val j) "choices" with
  | Except.error e => Except.error e
  | Except.ok choices =>
    match jsIndex0 choices with
    | Except.error e => Except.error e
    | Except.ok c0 =>
      match jsGetField c0 "delta" with
      | Except.error e => Except.error e
      | Except.ok delta => Except.ok (jsOptField delta "content")

/-- Embedding of `v || ""` applied to the extracted content value. -/
def textOf (v : JSVal) : JSVal :=
  if jsTruthy v then v else JSVal.val (Json.str "")

/-- An SSE payload as seen by `onParse`: the literal sentinel "[DONE]", a
string `JSON.parse` accepts (with its parse), or a string it rejects. -/
inductive Payload where
  | done : Payload
  | json (j : Json) : Payload
  | malformed (raw : String) : Payload
  deriving Repr

/-- A parsed SSE event delivered by `createParser` to the `onParse`
callback: a type tag (the handler only reacts to "event") and the payload. -/
structure SSEEvent where
  type : String
  data : Payload
  deriving Repr

/-- State of the `ReadableStream` default controller as observed by the
producer: `enqueue` and `close` throw once the state leaves `readable`,
`error` is a no-op once it has left `readable`. -/
inductive CtrlState where
  | readable : CtrlState
  | closeRequested : CtrlState
  | errored : CtrlState
  deriving Repr

/-- The mutable state of `OpenAIStream` (src/index.mjs lines 275-277 and the
controller): the emission counter, the last parsed payload (`data`), the
accumulated response text, the controller state, the chunks enqueued so far
(decoded back to strings; `TextEncoder.encode` is injective), the arguments
of every `logger` invocation, and whether an uncaught exception has aborted
the feed loop. -/
structure St where
  counter : Nat
  data : Json
  response : String
  ctrl : CtrlState
  emitted : List String
  loggerCalls : List (String × Json)
  aborted : Bool
  deriving Repr

/-- The state at stream start: `counter = 0`, `data = {}`, `response = ""`,
a fresh readable controller, nothing emitted, logger not yet invoked. -/
def initSt : St :=
  { counter := 0, data := Json.obj [], response := "", ctrl := CtrlState.readable,
    emitted := [], loggerCalls := [], aborted := false }

/-- Effect of `controller.error (e)`: errors the stream while it is
readable, otherwise does nothing. -/
def ctrlError (st : St) : St :=
  match st.ctrl with
  | CtrlState.readable => { st with ctrl := CtrlState.errored }
  | _ => st

/-- Effect of `controller.enqueue (chunk)` followed by `counter++`: while
the controller is readable the chunk is appended and the counter bumped;
otherwise `enqueue` throws, the `catch` block runs `controller.error`, which
is then a no-op, and the counter is left alone. -/
def emitStep (st : St) (s : String) : St :=
  match st.ctrl with
  | CtrlState.readable =>
      { st with emitted := st.emitted ++ [s], counter := st.counter + 1 }
  | _ => st

/-- The sentinel branch (src/index.mjs lines 291-298): `logger` is invoked
first, then `controller.close ()`; the close throws a TypeError if the
stream is no longer readable, and that exception is not caught inside
`onParse`, so it propagates out of `parser.feed` and kills the feed loop. -/
def doneStep (st : St) : St :=
  let st1 := { st with loggerCalls := st.loggerCalls ++ [(st.response, st.data)] }
  match st.ctrl with
  | CtrlState.readable => { st1 with ctrl := CtrlState.closeRequested }
  | _ => { st1 with aborted := true }

/-- The JSON branch (src/index.mjs lines 300-313): parse succeeded, so the
fragment is extracted (a TypeError is caught and errors the controller),
the accumulator mutations `response += text; data = json` happen, then the
suppression test runs; `text.match (...)` throws on a non-string text, and
that TypeError is caught after the mutations have already happened. -/
def jsonStep (st : St) (j : Json) : St :=
  match extractContent j with
  | Except.error _ => ctrlError st
  | Except.ok v =>
    let t := textOf v
    let st1 := { st with response := st.response ++ jsValToString t, data := j }
    if st1.counter < 2 then
      match t with
      | JSVal.val (Json.str s) => if hasNewline s then st1 else emitStep st1 s
      | _ => ctrlError st1
    else emitStep st1 (jsValToString t)

/-- Embedding of the `onParse` callback (src/index.mjs lines 287-315) as a
state transition.  A set `aborted` flag means a previous event threw an
uncaught exception out of `parser.feed`, which killed the feed loop, so the
event is never delivered.  A malformed payload makes `JSON.parse` throw,
which the `catch` block turns into `controller.error`. -/
def onParse (st : St) (ev : SSEEvent) : St :=
  if st.aborted then st
  else if ev.type = "event" then
    match ev.data with
    | Payload.done => doneStep st
    | Payload.malformed _ => ctrlError st
    | Payload.json j => jsonStep st j
  else st

/-- Feeding a sequence of parsed SSE events through the handler. -/
def feedEvents (st : St) (evs : List SSEEvent) : St := evs.foldl onParse st

/-- The payload `{"choices":[{"delta":{"content": s}}]}`. -/
def textJson (s : String) : Json :=
  Json.obj [("choices", Json.arr [Json.obj [("delta", Json.obj [("content", Json.str s)])]])]

/-- An SSE event carrying a plain content fragment. -/
def mkTextEvent (s : String) : SSEEvent :=
  { type := "event", data := Payload.json (textJson s) }

/-- The terminating sentinel event `data: [DONE]`. -/
def doneEv : SSEEvent := { type := "event", data := Payload.done }

/-- Concatenation of a list of strings in order. -/
def strConcat : List String → String
  | [] => ""
  | s :: rest => s ++ strConcat rest

/-- The text fragment an event contributes to the accumulated response: a
non-"event" record, the sentinel, a malformed payload, and a payload whose
extraction throws all contribute nothing; a successful extraction
contributes the (coerced) extracted text. -/
def fragmentOf (ev : SSEEvent) : List String :=
  if ev.type = "event" then
    match ev.data with
    | Payload.json j =>
      match extractContent j with
      | Except.ok v => [jsValToString (textOf v)]
      | Except.error _ => []
    | _ => []
  else []

/-- All fragments contributed by a list of events, in arrival order. -/
def fragsOf (evs : List SSEEvent) : List String := (evs.map fragmentOf).flatten

/-- The prefix of the fed events that is actually delivered to `onParse`:
once an uncaught exception aborts the feed loop, the remaining events are
never parsed. -/
def procEvents (st : St) : List SSEEvent → List SSEEvent
  | [] => []
  | e :: rest => if st.aborted then [] else e :: procEvents (onParse st e) rest

/-- The display output of a stream of plain string fragments: a fragment is
suppressed while fewer than two fragments have been emitted and it contains
a newline; an emission bumps the count. -/
def emitFold : Nat → List String → List String
  | _, [] => []
  | c, s :: rest =>
      if c < 2 ∧ hasNewline s = true then emitFold c rest
      else s :: emitFold (c + 1) rest

/-- The emission counter after a stream of plain string fragments. -/
def counterAfter : Nat → List String → Nat
  | c, [] => c
  | c, s :: rest =>
      if c < 2 ∧ hasNewline s = true then counterAfter c rest
      else counterAfter (c + 1) rest

/-- An event the handler consumes without touching the logger or the
controller state: either a record the handler ignores, or a JSON payload
whose extraction succeeds with a string (possibly defaulted) text. -/
def benign (e : SSEEvent) : Bool :=
  if e.type = "event" then
    match e.data with
    | Payload.json j =>
      match extractContent j with
      | Except.ok v =>
        match textOf v with
        | JSVal.val (Json.str _) => true
        | _ => false
      | Except.error _ => false
    | _ => false
  else true

/-- The rows the `logger` closure (src/index.mjs lines 87-97) hands to the
`log` collaborator: the prompt, model and system strings are captured by the
closure, the response text and raw data object come from each call. -/
def mkLogRecords (p m sys : String) (calls : List (String × Json)) :
    List (String × String × String × String × Json) :=
  calls.map (fun c => (p, m, sys, c.1, c.2))

/-- The white-space set of `String.prototype.trim`: WhiteSpace (tab, VT, FF,
space, NBSP, ZWNBSP, the Unicode space separators) plus the line
terminators LF, CR, LS, PS. -/
def jsIsWhitespace (c : Char) : Bool :=
  c == ' ' || c == '\t' || c == '\n' || c == '\r' ||
  c.toNat == 0x0B || c.toNat == 0x0C || c.toNat == 0xA0 || c.toNat == 0x1680 ||
  (0x2000 ≤ c.toNat && c.toNat ≤ 0x200A) ||
  c.toNat == 0x2028 || c.toNat == 0x2029 || c.toNat == 0x202F ||
  c.toNat == 0x205F || c.toNat == 0x3000 || c.toNat == 0xFEFF

/-- Embedding of `String.prototype.trim`: drop leading and trailing
white space. -/
def jsTrim (s : String) : String :=
  String.mk (((s.data.dropWhile jsIsWhitespace).reverse.dropWhile jsIsWhitespace).reverse)

/-- Embedding of `unwrapMarkdown` (src/index.mjs lines 243-252): split on
newlines, shift the first line when its trim starts with a code fence,
pop the last line when its trim is exactly a fence, join back.  When the
shift empties the line list, `lines[lines.length - 1]` is `undefined` and
the `.trim ()` call on it throws a TypeError. -/
def unwrapMarkdown (content : String) : Except Unit String :=
  match content.splitOn "\n" with
  | [] => Except.error ()
  | l0 :: rest =>
    let lines1 := if (jsTrim l0).startsWith "```" then rest else l0 :: rest
    match lines1.getLast? with
    | none => Except.error ()
    | some ll =>
      let lines2 := if jsTrim ll == "```" then lines1.dropLast else lines1
      Except.ok (String.intercalate "\n" lines2)

/-- Embedding of `data.choices[0].message.content.trim ()` (src/index.mjs
line 141): each member access may throw a TypeError, and the final
`.trim ()` throws unless the content is a string. -/
def messageContent (data : Json) : Except Unit String :=
  match jsGetField (JSVal.val data) "choices" with
  | Except.error e => Except.error e
  | Except.ok choices =>
    match jsIndex0 choices with
    | Except.error e => Except.error e
    | Except.ok c0 =>
      match jsGetField c0 "message" with
      | Except.error e => Except.error e
      | Except.ok msg =>
        match jsGetField msg "content" with
        | Except.error e => Except.error e
        | Except.ok content =>
          match content with
          | JSVal.val (Json.str s) => Except.ok (jsTrim s)
          | _ => Except.error ()

/-- Embedding of the non-streaming branch of `main` (src/index.mjs lines
139-152): extract and trim the response (a throw aborts the invocation
before the logger runs), invoke the logger once, then display either the
raw response or its markdown unwrap.  The first component records the
`logger` invocations, the second the displayed string (or the abort). -/
def nonStreamingRun (codeFlag : Bool) (data : Json) :
    List (String × Json) × Except Unit String :=
  match messageContent data with
  | Except.error e => ([], Except.error e)
  | Except.ok response =>
    match (if codeFlag then unwrapMarkdown response else Except.ok response) with
    | Except.error e => ([(response, data)], Except.error e)
    | Except.ok dis => ([(response, data)], Except.ok dis)

/-- The reachability invariant of the handler state: while the controller is
still readable, the logger has never run and no exception has escaped. -/
def InvSt (st : St) : Prop :=
  st.ctrl = CtrlState.readable → (st.loggerCalls = [] ∧ st.aborted = false)

/-! ### Basic lemmas about the step functions -/

@[simp] lemma ctrlError_counter (st : St) : (ctrlError st).counter = st.counter := by
  unfold ctrlError; split <;> rfl

@[simp] lemma ctrlError_data (st : St) : (ctrlError st).data = st.data := by
  unfold ctrlError; split <;> rfl

@[simp] lemma ctrlError_response (st : St) : (ctrlError st).response = st.response := by
  unfold ctrlError; split <;> rfl

@[simp] lemma ctrlError_emitted (st : St) : (ctrlError st).emitted = st.emitted := by
  unfold ctrlError; split <;> rfl

@[simp] lemma ctrlError_logger (st : St) : (ctrlError st).loggerCalls = st.loggerCalls := by
  unfold ctrlError; split <;> rfl

@[simp] lemma ctrlError_aborted (st : St) : (ctrlError st).aborted = st.aborted := by
  unfold ctrlError; split <;> rfl

lemma ctrlError_of_readable (st : St) (h : st.ctrl = CtrlState.readable) :
    ctrlError st = { st with ctrl := CtrlState.errored } := by
  unfold ctrlError; rw [h]

lemma ctrlError_of_nonreadable (st : St) (h : ¬ st.ctrl = CtrlState.readable) :
    ctrlError st = st := by
  unfold ctrlError
  cases hc : st.ctrl
  · exact absurd hc h
  · rfl
  · rfl

@[simp] lemma emitStep_response (st : St) (s : String) :
    (emitStep st s).response = st.response := by
  unfold emitStep; split <;> rfl

@[simp] lemma emitStep_data (st : St) (s : String) : (emitStep st s).data = st.data := by
  unfold emitStep; split <;> rfl

@[simp] lemma emitStep_logger (st : St) (s : String) :
    (emitStep st s).loggerCalls = st.loggerCalls := by
  unfold emitStep; split <;> rfl

@[simp] lemma emitStep_aborted (st : St) (s : String) :
    (emitStep st s).aborted = st.aborted := by
  unfold emitStep; split <;> rfl

@[simp] lemma emitStep_ctrl (st : St) (s : String) : (emitStep st s).ctrl = st.ctrl := by
  unfold emitStep
  cases hc : st.ctrl <;> simp [hc]

lemma emitStep_of_readable (st : St) (s : String) (h : st.ctrl = CtrlState.readable) :
    emitStep st s = { st with emitted := st.emitted ++ [s], counter := st.counter + 1 } := by
  unfold emitStep; rw [h]

lemma emitStep_of_nonreadable (st : St) (s : String) (h : ¬ st.ctrl = CtrlState.readable) :
    emitStep st s = st := by
  unfold emitStep
  cases hc : st.ctrl
  · exact absurd hc h
  · rfl
  · rfl

@[simp] lemma doneStep_response (st : St) : (doneStep st).response = st.response := by
  unfold doneStep; split <;> rfl

@[simp] lemma doneStep_data (st : St) : (doneStep st).data = st.data := by
  unfold doneStep; split <;> rfl

@[simp] lemma doneStep_emitted (st : St) : (doneStep st).emitted = st.emitted := by
  unfold doneStep; split <;> rfl

@[simp] lemma doneStep_counter (st : St) : (doneStep st).counter = st.counter := by
  unfold doneStep; split <;> rfl

@[simp] lemma doneStep_logger (st : St) :
    (doneStep st).loggerCalls = st.loggerCalls ++ [(st.response, st.data)] := by
  unfold doneStep; split <;> rfl

@[simp] lemma doneStep_ctrl (st : St) : (doneStep st).ctrl = st.ctrl ∨
    (doneStep st).ctrl = CtrlState.closeRequested := by
  unfold doneStep
  cases hc : st.ctrl
  · right; rfl
  · left; rfl
  · left; rfl

lemma doneStep_ctrl_ne_readable (st : St) : ¬ (doneStep st).ctrl = CtrlState.readable := by
  unfold doneStep
  cases hc : st.ctrl <;> simp [hc]

lemma doneStep_of_readable (st : St) (h : st.ctrl = CtrlState.readable) :
    doneStep st = { st with loggerCalls := st.loggerCalls ++ [(st.response, st.data)],
                            ctrl := CtrlState.closeRequested } := by
  unfold doneStep; rw [h]

lemma doneStep_of_nonreadable (st : St) (h : ¬ st.ctrl = CtrlState.readable) :
    doneStep st = { st with loggerCalls := st.loggerCalls ++ [(st.response, st.data)],
                            aborted := true } := by
  unfold doneStep
  cases hc : st.ctrl
  · exact absurd hc h
  · rfl
  · rfl

@[simp] lemma jsonStep_logger (st : St) (j : Json) :
    (jsonStep st j).loggerCalls = st.loggerCalls := by
  unfold jsonStep
  cases hx : extractContent j
  · simp
  · dsimp only
    split
    · split <;> (try split) <;> simp
    · simp

@[simp] lemma jsonStep_aborted (st : St) (j : Json) :
    (jsonStep st j).aborted = st.aborted := by
  unfold jsonStep
  cases hx : extractContent j
  · simp
  · dsimp only
    split
    · split <;> (try split) <;> simp
    · simp

lemma jsonStep_nonreadable (st : St) (j : Json) (h : ¬ st.ctrl = CtrlState.readable) :
    (jsonStep st j).ctrl = st.ctrl ∧ (jsonStep st j).emitted = st.emitted ∧
    (jsonStep st j).counter = st.counter := by
  unfold jsonStep
  cases hx : extractContent j
  · simp [ctrlError_of_nonreadable st h]
  · dsimp only
    split
    · split
      · split
        · exact ⟨rfl, rfl, rfl⟩
        · simp [emitStep_of_nonreadable, h]
      · simp [ctrlError_of_nonreadable, h]
    · simp [emitStep_of_nonreadable, h]

/-! ### Lemmas about `onParse` and `feedEvents` -/

lemma onParse_of_aborted (st : St) (ev : SSEEvent) (h : st.aborted = true) :
    onParse st ev = st := by
  simp [onParse, h]

lemma onParse_done (st : St) (h : st.aborted = false) :
    onParse st doneEv = doneStep st := by
  simp [onParse, doneEv, h]

lemma onParse_json (st : St) (j : Json) (h : st.aborted = false) :
    onParse st (SSEEvent.mk "event" (Payload.json j)) = jsonStep st j := by
  simp [onParse, h]

lemma onParse_malformed (st : St) (r : String) (h : st.aborted = false) :
    onParse st (SSEEvent.mk "event" (Payload.malformed r)) = ctrlError st := by
  simp [onParse, h]

lemma onParse_logger_nodone (st : St) (ev : SSEEvent)
    (h : ¬ (ev.type = "event" ∧ ev.data = Payload.done)) :
    (onParse st ev).loggerCalls = st.loggerCalls := by
  by_cases hab : st.aborted = true
  · rw [onParse_of_aborted st ev hab]
  · have hab2 : st.aborted = false := by simpa using hab
    rcases ev with ⟨ty, pl⟩
    by_cases hty : ty = "event"
    · subst hty
      cases pl
      · exact absurd ⟨rfl, rfl⟩ h
      · simp [onParse, hab2]
      · simp [onParse, hab2]
    · simp [onParse, hty]

lemma onParse_aborted_nodone (st : St) (ev : SSEEvent)
    (h : ¬ (ev.type = "event" ∧ ev.data = Payload.done)) :
    (onParse st ev).aborted = st.aborted := by
  by_cases hab : st.aborted = true
  · rw [onParse_of_aborted st ev hab]
  · have hab2 : st.aborted = false := by simpa using hab
    rcases ev with ⟨ty, pl⟩
    by_cases hty : ty = "event"
    · subst hty
      cases pl
      · exact absurd ⟨rfl, rfl⟩ h
      · simp [onParse, hab2]
      · simp [onParse, hab2]
    · simp [onParse, hty]

lemma onParse_nonreadable (st : St) (ev : SSEEvent) (h : ¬ st.ctrl = CtrlState.readable) :
    (onParse st ev).ctrl = st.ctrl ∧ (onParse st ev).emitted = st.emitted := by
  by_cases hab : st.aborted = true
  · rw [onParse_of_aborted st ev hab]; exact ⟨rfl, rfl⟩
  · have hab2 : st.aborted = false := by simpa using hab
    rcases ev with ⟨ty, pl⟩
    by_cases hty : ty = "event"
    · subst hty
      cases pl
      · rw [show onParse st (SSEEvent.mk "event" Payload.done) = doneStep st from by
          simp [onParse, hab2]]
        rw [doneStep_of_nonreadable st h]
        exact ⟨rfl, rfl⟩
      · rename_i j
        rw [onParse_json st j hab2]
        exact ⟨(jsonStep_nonreadable st j h).1, (jsonStep_nonreadable st j h).2.1⟩
      · rename_i r
        rw [onParse_malformed st r hab2, ctrlError_of_nonreadable st h]
        exact ⟨rfl, rfl⟩
    · simp [onParse, hty]

lemma feed_nil (st : St) : feedEvents st [] = st := rfl

lemma feed_cons (st : St) (e : SSEEvent) (evs : List SSEEvent) :
    feedEvents st (e :: evs) = feedEvents (onParse st e) evs := rfl

lemma feed_append (st : St) (a b : List SSEEvent) :
    feedEvents st (a ++ b) = feedEvents (feedEvents st a) b := by
  simp [feedEvents, List.foldl_append]

lemma feed_of_aborted (st : St) (evs : List SSEEvent) (h : st.aborted = true) :
    feedEvents st evs = st := by
  induction evs generalizing st with
  | nil => rfl
  | cons e rest ih =>
    rw [feed_cons, onParse_of_aborted st e h]
    exact ih st h

lemma feed_nonreadable (st : St) (evs : List SSEEvent) (h : ¬ st.ctrl = CtrlState.readable) :
    (feedEvents st evs).ctrl = st.ctrl ∧ (feedEvents st evs).emitted = st.emitted := by
  induction evs generalizing st with
  | nil => exact ⟨rfl, rfl⟩
  | cons e rest ih =>
    rw [feed_cons]
    have hstep := onParse_nonreadable st e h
    have h2 : ¬ (onParse st e).ctrl = CtrlState.readable := by
      rw [hstep.1]; exact h
    have hrec := ih (onParse st e) h2
    exact ⟨by rw [hrec.1, hstep.1], by rw [hrec.2, hstep.2]⟩

lemma feed_logger_nodone (st : St) (evs : List SSEEvent)
    (h : ∀ e ∈ evs, ¬ (e.type = "event" ∧ e.data = Payload.done)) :
    (feedEvents st evs).loggerCalls = st.loggerCalls := by
  induction evs generalizing st with
  | nil => rfl
  | cons e rest ih =>
    rw [feed_cons]
    rw [ih (onParse st e) (fun x hx => h x (List.mem_cons_of_mem e hx))]
    exact onParse_logger_nodone st e (h e (List.mem_cons_self e rest))

lemma invSt_initSt : InvSt initSt := fun _ => ⟨rfl, rfl⟩

lemma invSt_onParse (st : St) (ev : SSEEvent) (h : InvSt st) : InvSt (onParse st ev) := by
  intro hpost
  by_cases hab : st.aborted = true
  · rw [onParse_of_aborted st ev hab] at hpost ⊢
    exact h hpost
  · have hab2 : st.aborted = false := by simpa using hab
    rcases ev with ⟨ty, pl⟩
    by_cases hty : ty = "event"
    · subst hty
      cases pl
      · rw [show onParse st (SSEEvent.mk "event" Payload.done) = doneStep st from by
          simp [onParse, hab2]] at hpost
        exact absurd hpost (doneStep_ctrl_ne_readable st)
      · rename_i j
        rw [onParse_json st j hab2] at hpost ⊢
        by_cases hcs : st.ctrl = CtrlState.readable
        · obtain ⟨hl, _⟩ := h hcs
          exact ⟨by rw [jsonStep_logger, hl], by rw [jsonStep_aborted, hab2]⟩
        · have := (jsonStep_nonreadable st j hcs).1
          rw [this] at hpost
          exact absurd hpost hcs
      · rename_i r
        rw [onParse_malformed st r hab2] at hpost ⊢
        by_cases hcs : st.ctrl = CtrlState.readable
        · rw [ctrlError_of_readable st hcs] at hpost
          exact absurd hpost (by simp)
        · rw [ctrlError_of_nonreadable st hcs] at hpost ⊢
          exact h hpost
    · rw [show onParse st (SSEEvent.mk ty pl) = st from by simp [onParse, hty]] at hpost ⊢
      exact h hpost

lemma invSt_feed (st : St) (evs : List SSEEvent) (h : InvSt st) : InvSt (feedEvents st evs) := by
  induction evs generalizing st with
  | nil => exact h
  | cons e rest ih =>
    rw [feed_cons]
    exact ih (onParse st e) (invSt_onParse st e h)

lemma feed_initSt_readable (evs : List SSEEvent)
    (h : (feedEvents initSt evs).ctrl = CtrlState.readable) :
    (feedEvents initSt evs).loggerCalls = [] ∧ (feedEvents initSt evs).aborted = false :=
  invSt_feed initSt evs invSt_initSt h

/-! ### Streams of plain text fragments -/

lemma strConcat_nil : strConcat [] = "" := rfl

lemma strConcat_cons (s : String) (l : List String) :
    strConcat (s :: l) = s ++ strConcat l := rfl

lemma strConcat_append (a b : List String) :
    strConcat (a ++ b) = strConcat a ++ strConcat b := by
  induction a with
  | nil => rw [List.nil_append, strConcat_nil, String.empty_append]
  | cons s rest ih =>
    rw [List.cons_append, strConcat_cons, strConcat_cons, ih, String.append_assoc]

lemma extractContent_textJson (s : String) :
    extractContent (textJson s) = Except.ok (JSVal.val (Json.str s)) := rfl

lemma textOf_str (s : String) :
    textOf (JSVal.val (Json.str s)) = JSVal.val (Json.str s) := by
  by_cases h : s = ""
  · subst h; rfl
  · have ht : jsTruthy (JSVal.val (Json.str s)) = true := by
      simpa [jsTruthy, bne_iff_ne] using h
    simp [textOf, ht]

lemma jsValToString_str (s : String) : jsValToString (JSVal.val (Json.str s)) = s := rfl

lemma jsonStep_of_str (st : St) (j : Json) (v : JSVal) (s : String)
    (hx : extractContent j = Except.ok v) (htv : textOf v = JSVal.val (Json.str s)) :
    jsonStep st j =
      if st.counter < 2 ∧ hasNewline s = true
      then { st with response := st.response ++ s, data := j }
      else emitStep { st with response := st.response ++ s, data := j } s := by
  unfold jsonStep
  rw [hx]
  dsimp only
  rw [htv, jsValToString_str]
  by_cases h1 : st.counter < 2 <;> by_cases h2 : hasNewline s = true <;> simp [h1, h2]

lemma jsonStep_response (st : St) (j : Json) :
    (jsonStep st j).response = st.response ++
      (match extractContent j with
       | Except.ok v => jsValToString (textOf v)
       | Except.error _ => "") := by
  unfold jsonStep
  cases hx : extractContent j
  · simp [String.append_empty]
  · dsimp only
    split <;> (try split) <;> (try split) <;> simp

lemma onParse_text (st : St) (s : String) (hc : st.ctrl = CtrlState.readable)
    (hab : st.aborted = false) :
    onParse st (mkTextEvent s) =
      if st.counter < 2 ∧ hasNewline s = true
      then { st with response := st.response ++ s, data := textJson s }
      else { st with response := st.response ++ s, data := textJson s, emitted := st.emitted ++ [s], counter := st.counter + 1 } := by
  rw [show mkTextEvent s = SSEEvent.mk "event" (Payload.json (textJson s)) from rfl,
      onParse_json st (textJson s) hab,
      jsonStep_of_str st (textJson s) (JSVal.val (Json.str s)) s (extractContent_textJson s)
        (textOf_str s)]
  by_cases hcase : st.counter < 2 ∧ hasNewline s = true <;>
    simp [hcase, emitStep_of_readable, hc]

lemma emitFold_cons (c : Nat) (s : String) (rest : List String) :
    emitFold c (s :: rest) =
      if c < 2 ∧ hasNewline s = true then emitFold c rest
      else s :: emitFold (c + 1) rest := rfl

lemma counterAfter_cons (c : Nat) (s : String) (rest : List String) :
    counterAfter c (s :: rest) =
      if c < 2 ∧ hasNewline s = true then counterAfter c rest
      else counterAfter (c + 1) rest := rfl

lemma feedText (frags : List String) (st : St) (hc : st.ctrl = CtrlState.readable)
    (hab : st.aborted = false) :
    (feedEvents st (frags.map mkTextEvent)).emitted = st.emitted ++ emitFold st.counter frags ∧
    (feedEvents st (frags.map mkTextEvent)).response = st.response ++ strConcat frags ∧
    (feedEvents st (frags.map mkTextEvent)).counter = counterAfter st.counter frags ∧
    (feedEvents st (frags.map mkTextEvent)).ctrl = CtrlState.readable ∧
    (feedEvents st (frags.map mkTextEvent)).aborted = false := by
  induction frags generalizing st with
  | nil =>
    refine ⟨by simp [feed_nil, emitFold], ?_, rfl, hc, hab⟩
    simp [feed_nil, strConcat, String.append_empty]
  | cons s rest ih =>
    rw [List.map_cons, feed_cons, onParse_text st s hc hab]
    by_cases hcase : st.counter < 2 ∧ hasNewline s = true
    · rw [if_pos hcase]
      have hrec := ih { st with response := st.response ++ s, data := textJson s } hc hab
      refine ⟨?_, ?_, ?_, hrec.2.2.2.1, hrec.2.2.2.2⟩
      · rw [hrec.1, emitFold_cons, if_pos hcase]
      · rw [hrec.2.1, strConcat_cons, String.append_assoc]
      · rw [hrec.2.2.1, counterAfter_cons, if_pos hcase]
    · rw [if_neg hcase]
      have hrec := ih { st with response := st.response ++ s, data := textJson s, emitted := st.emitted ++ [s], counter := st.counter + 1 } hc hab
      refine ⟨?_, ?_, ?_, hrec.2.2.2.1, hrec.2.2.2.2⟩
      · rw [hrec.1, emitFold_cons, if_neg hcase]
        show (st.emitted ++ [s]) ++ emitFold (st.counter + 1) rest = _
        rw [List.append_assoc, List.singleton_append]
      · rw [hrec.2.1, strConcat_cons, String.append_assoc]
      · rw [hrec.2.2.1, counterAfter_cons, if_neg hcase]

lemma emitFold_append (c : Nat) (a b : List String) :
    emitFold c (a ++ b) = emitFold c a ++ emitFold (counterAfter c a) b := by
  induction a generalizing c with
  | nil => rfl
  | cons s rest ih =>
    rw [List.cons_append, emitFold_cons, emitFold_cons, counterAfter_cons]
    by_cases hcase : c < 2 ∧ hasNewline s = true
    · rw [if_pos hcase, if_pos hcase, if_pos hcase, ih c]
    · rw [if_neg hcase, if_neg hcase, if_neg hcase, ih (c + 1), List.cons_append]

/-! ### The accumulated response as a concatenation of fragments -/

lemma procEvents_nil (st : St) : procEvents st [] = [] := rfl

lemma procEvents_cons (st : St) (e : SSEEvent) (rest : List SSEEvent) :
    procEvents st (e :: rest) =
      if st.aborted then [] else e :: procEvents (onParse st e) rest := rfl

lemma fragsOf_nil : fragsOf [] = [] := rfl

lemma fragsOf_cons (e : SSEEvent) (evs : List SSEEvent) :
    fragsOf (e :: evs) = fragmentOf e ++ fragsOf evs := by
  simp [fragsOf]

lemma onParse_response (st : St) (ev : SSEEvent) (hab : st.aborted = false) :
    (onParse st ev).response = st.response ++ strConcat (fragmentOf ev) := by
  rcases ev with ⟨ty, pl⟩
  by_cases hty : ty = "event"
  · subst hty
    cases pl
    · rw [show onParse st (SSEEvent.mk "event" Payload.done) = doneStep st from by
        simp [onParse, hab]]
      simp [fragmentOf, strConcat, String.append_empty]
    · rename_i j
      rw [onParse_json st j hab, jsonStep_response st j]
      unfold fragmentOf
      cases hx : extractContent j <;> simp [hx, strConcat, String.append_empty]
    · rename_i r
      rw [onParse_malformed st r hab]
      simp [fragmentOf, strConcat, String.append_empty]
  · rw [show onParse st (SSEEvent.mk ty pl) = st from by simp [onParse, hty]]
    simp [fragmentOf, hty, strConcat, String.append_empty]

lemma feed_resp (evs : List SSEEvent) (st : St) :
    (feedEvents st evs).response = st.response ++ strConcat (fragsOf (procEvents st evs)) := by
  induction evs generalizing st with
  | nil => simp [feed_nil, procEvents_nil, fragsOf_nil, strConcat_nil, String.append_empty]
  | cons e rest ih =>
    rw [feed_cons, procEvents_cons]
    by_cases hab : st.aborted = true
    · simp only [hab, if_true]
      rw [onParse_of_aborted st e hab, feed_of_aborted st rest hab]
      simp [fragsOf_nil, strConcat_nil, String.append_empty]
    · have hab2 : st.aborted = false := by simpa using hab
      simp only [hab2, Bool.false_eq_true, if_false]
      rw [ih (onParse st e), onParse_response st e hab2, fragsOf_cons, strConcat_append,
        String.append_assoc]

/-! ### Benign events leave the logger and the controller alone -/

lemma onParse_benign (st : St) (e : SSEEvent) (hb : benign e = true)
    (hc : st.ctrl = CtrlState.readable) (hab : st.aborted = false) :
    (onParse st e).ctrl = CtrlState.readable ∧ (onParse st e).aborted = false ∧
    (onParse st e).loggerCalls = st.loggerCalls := by
  rcases e with ⟨ty, pl⟩
  by_cases hty : ty = "event"
  · subst hty
    cases pl
    · simp [benign] at hb
    · rename_i j
      rw [onParse_json st j hab]
      have hb2 : (match extractContent j with
          | Except.ok v =>
            (match textOf v with
             | JSVal.val (Json.str _) => true
             | _ => false)
          | Except.error _ => false) = true := by
        simpa [benign] using hb
      cases hx : extractContent j
      · rw [hx] at hb2; simp at hb2
      · rename_i v
        rw [hx] at hb2
        dsimp only at hb2
        cases htv : textOf v
        · rw [htv] at hb2; simp at hb2
        · rename_i jv
          cases jv <;> rw [htv] at hb2 <;> (try simp at hb2)
          rename_i s
          rw [jsonStep_of_str st j v s hx htv]
          by_cases hcase : st.counter < 2 ∧ hasNewline s = true <;>
            simp [hcase, hc, hab]
    · simp [benign] at hb
  · rw [show onParse st (SSEEvent.mk ty pl) = st from by simp [onParse, hty]]
    exact ⟨hc, hab, rfl⟩

lemma feed_benign (evs : List SSEEvent) (st : St) (hb : ∀ e ∈ evs, benign e = true)
    (hc : st.ctrl = CtrlState.readable) (hab : st.aborted = false) :
    (feedEvents st evs).ctrl = CtrlState.readable ∧ (feedEvents st evs).aborted = false ∧
    (feedEvents st evs).loggerCalls = st.loggerCalls := by
  induction evs generalizing st with
  | nil => exact ⟨hc, hab, rfl⟩
  | cons e rest ih =>
    rw [feed_cons]
    have hstep := onParse_benign st e (hb e (List.mem_cons_self e rest)) hc hab
    have hrec := ih (onParse st e) (fun x hx => hb x (List.mem_cons_of_mem e hx))
      hstep.1 hstep.2.1
    exact ⟨hrec.1, hrec.2.1, by rw [hrec.2.2, hstep.2.2]⟩

/-! ### Extraction on specific payload shapes -/

lemma extractContent_of_choices (jflds dflds : List (String × Json)) (restCh : List Json)
    (hch : lookupField jflds "choices" = some (Json.arr (Json.obj dflds :: restCh))) :
    extractContent (Json.obj jflds) =
      Except.ok (jsOptField (jsGetOwn (Json.obj dflds) "delta") "content") := by
  unfold extractContent
  simp [jsGetField, jsGetOwn, hch, jsIndex0, jsOptField]

lemma extractContent_no_choices (jflds : List (String × Json))
    (h : lookupField jflds "choices" = none) :
    extractContent (Json.obj jflds) = Except.error () := by
  simp [extractContent, jsGetField, jsGetOwn, h, jsIndex0]

lemma extractContent_empty_choices (jflds : List (String × Json))
    (h : lookupField jflds "choices" = some (Json.arr [])) :
    extractContent (Json.obj jflds) = Except.error () := by
  simp [extractContent, jsGetField, jsGetOwn, h, jsIndex0]

lemma messageContent_of (flds cflds mflds : List (String × Json)) (restCh : List Json)
    (s : String)
    (h1 : lookupField flds "choices" = some (Json.arr (Json.obj cflds :: restCh)))
    (h2 : lookupField cflds "message" = some (Json.obj mflds))
    (h3 : lookupField mflds "content" = some (Json.str s)) :
    messageContent (Json.obj flds) = Except.ok (jsTrim s) := by
  simp [messageContent, jsGetField, jsGetOwn, jsIndex0, h1, h2, h3]

/-! ### Trimming removes the boundary white space -/

lemma dropWhile_head_not {α : Type} (p : α → Bool) (l : List α) {c : α}
    (h : (l.dropWhile p).head? = some c) : p c = false := by
  induction l with
  | nil => simp [List.dropWhile] at h
  | cons a rest ih =>
    rw [List.dropWhile_cons] at h
    by_cases hp : p a = true
    · rw [if_pos hp] at h; exact ih h
    · rw [if_neg hp] at h
      have hac : a = c := by simpa using h
      subst hac
      simpa using hp

lemma dropWhile_getLast_of_ne {α : Type} (p : α → Bool) (l : List α)
    (h : l.dropWhile p ≠ []) : (l.dropWhile p).getLast? = l.getLast? := by
  induction l with
  | nil => rfl
  | cons a rest ih =>
    rw [List.dropWhile_cons] at h ⊢
    by_cases hp : p a = true
    · rw [if_pos hp] at h ⊢
      rw [ih h]
      cases rest with
      | nil => exact (h rfl).elim
      | cons b t => rw [List.getLast?_cons_cons]
    · rw [if_neg hp]

lemma jsTrim_head (s : String) (c : Char) (h : (jsTrim s).data.head? = some c) :
    jsIsWhitespace c = false := by
  unfold jsTrim at h
  rw [show (String.mk (((s.data.dropWhile jsIsWhitespace).reverse.dropWhile
      jsIsWhitespace).reverse)).data = ((s.data.dropWhile jsIsWhitespace).reverse.dropWhile
      jsIsWhitespace).reverse from rfl] at h
  rw [List.head?_reverse] at h
  have hne : (s.data.dropWhile jsIsWhitespace).reverse.dropWhile jsIsWhitespace ≠ [] := by
    intro he
    rw [he] at h
    simp at h
  rw [dropWhile_getLast_of_ne _ _ hne, List.getLast?_reverse] at h
  exact dropWhile_head_not _ _ h

lemma jsTrim_last (s : String) (c : Char) (h : (jsTrim s).data.getLast? = some c) :
    jsIsWhitespace c = false := by
  unfold jsTrim at h
  rw [show (String.mk (((s.data.dropWhile jsIsWhitespace).reverse.dropWhile
      jsIsWhitespace).reverse)).data = ((s.data.dropWhile jsIsWhitespace).reverse.dropWhile
      jsIsWhitespace).reverse from rfl] at h
  rw [List.getLast?_reverse] at h
  exact dropWhile_head_not _ _ h

lemma counterAfter_le (c : Nat) (l : List String) : counterAfter c l ≤ c + l.length := by
  induction l generalizing c with
  | nil => simp [counterAfter]
  | cons s rest ih =>
    rw [counterAfter_cons]
    by_cases hcase : c < 2 ∧ hasNewline s = true
    · rw [if_pos hcase]
      calc counterAfter c rest ≤ c + rest.length := ih c
        _ ≤ c + (s :: rest).length := by rw [List.length_cons]; omega
    · rw [if_neg hcase]
      calc counterAfter (c + 1) rest ≤ (c + 1) + rest.length := ih (c + 1)
        _ = c + (s :: rest).length := by rw [List.length_cons]; omega

lemma feed_one (st : St) (e : SSEEvent) : feedEvents st [e] = onParse st e := rfl

/-! ## The claims -/

/-- C1, counterexample: the handler has no terminal state guard, so feeding
a second "[DONE]" after the sentinel invokes the completion callback a
second time (before the `controller.close ()` throw aborts the feed); the
claim that the callback runs exactly once even if a second "[DONE]" is fed
post-sentinel is false on the code. -/
theorem C1_counterexample :
    (feedEvents initSt [doneEv, doneEv]).loggerCalls.length = 2 := rfl

/-- C1, amended: when "[DONE]" is processed in the streaming state the
completion callback has then run exactly once, with the accumulated text
and the last parsed metadata ({} if none), the stream is close-requested,
and no further output fragments are ever emitted afterwards; however,
post-sentinel events are still handed to the handler (a second sentinel
invokes the callback again, as the counterexample shows). -/
theorem C1_amended_thm (evs : List SSEEvent)
    (h : (feedEvents initSt evs).ctrl = CtrlState.readable) :
    (feedEvents initSt (evs ++ [doneEv])).loggerCalls
        = [((feedEvents initSt evs).response, (feedEvents initSt evs).data)] ∧
    (feedEvents initSt (evs ++ [doneEv])).ctrl = CtrlState.closeRequested ∧
    (feedEvents initSt (evs ++ [doneEv])).response = (feedEvents initSt evs).response ∧
    (feedEvents initSt (evs ++ [doneEv])).emitted = (feedEvents initSt evs).emitted ∧
    ∀ rest : List SSEEvent,
      (feedEvents initSt (evs ++ doneEv :: rest)).emitted
        = (feedEvents initSt evs).emitted := by
  obtain ⟨hlog, hab⟩ := feed_initSt_readable evs h
  have hstep : feedEvents initSt (evs ++ [doneEv]) =
      { feedEvents initSt evs with
        loggerCalls := [((feedEvents initSt evs).response, (feedEvents initSt evs).data)],
        ctrl := CtrlState.closeRequested } := by
    rw [feed_append, feed_one, onParse_done _ hab, doneStep_of_readable _ h, hlog,
      List.nil_append]
  refine ⟨by rw [hstep], by rw [hstep], by rw [hstep], by rw [hstep], ?_⟩
  intro rest
  have hsplit : evs ++ doneEv :: rest = (evs ++ [doneEv]) ++ rest := by
    rw [List.append_assoc, List.singleton_append]
  rw [hsplit, feed_append, hstep, (feed_nonreadable _ rest (by simp)).2]

/-- C1, witness: a bare sentinel stream invokes the callback once with the
empty accumulated response and the initial empty metadata object. -/
theorem C1_amended_witness :
    (feedEvents initSt [doneEv]).loggerCalls = [("", Json.obj [])] :=
  (C1_amended_thm [] rfl).1

/-- C2: for a non-sentinel event processed in the streaming state whose
payload extracts to the string fragment s, while the counter is below 2 a
newline-containing fragment is appended to the response but not emitted and
the counter stays; a newline-free fragment is emitted verbatim with the
counter bumped; and once the counter has reached 2 the fragment is emitted
regardless. -/
theorem C2_thm (st : St) (j : Json) (v : JSVal) (s : String)
    (hab : st.aborted = false) (hc : st.ctrl = CtrlState.readable)
    (hx : extractContent j = Except.ok v) (ht : textOf v = JSVal.val (Json.str s)) :
    (st.counter < 2 → hasNewline s = true →
      onParse st (SSEEvent.mk "event" (Payload.json j)) =
        { st with response := st.response ++ s, data := j }) ∧
    (hasNewline s = false →
      onParse st (SSEEvent.mk "event" (Payload.json j)) =
        { st with response := st.response ++ s, data := j, emitted := st.emitted ++ [s], counter := st.counter + 1 }) ∧
    (2 ≤ st.counter →
      onParse st (SSEEvent.mk "event" (Payload.json j)) =
        { st with response := st.response ++ s, data := j, emitted := st.emitted ++ [s], counter := st.counter + 1 }) := by
  rw [onParse_json st j hab, jsonStep_of_str st j v s hx ht]
  refine ⟨?_, ?_, ?_⟩
  · intro h1 h2
    rw [if_pos ⟨h1, h2⟩]
  · intro h2
    have hni : ¬ (st.counter < 2 ∧ hasNewline s = true) := by simp [h2]
    rw [if_neg hni,
      emitStep_of_readable ({ st with response := st.response ++ s, data := j }) s hc]
  · intro h1
    have hni : ¬ (st.counter < 2 ∧ hasNewline s = true) := fun hcon => by omega
    rw [if_neg hni,
      emitStep_of_readable ({ st with response := st.response ++ s, data := j }) s hc]

/-- C2, witness: the newline-free fragment "a" at counter 0 is appended and
emitted with the counter bumped to 1. -/
theorem C2_witness :
    onParse initSt (SSEEvent.mk "event" (Payload.json (textJson "a"))) =
      { initSt with response := "a", data := textJson "a", emitted := ["a"], counter := 1 } := by
  have h := C2_thm initSt (textJson "a") (JSVal.val (Json.str "a")) "a" rfl rfl
    (extractContent_textJson "a") (textOf_str "a")
  exact h.2.1 rfl

/-- C3, counterexample: three newline fragments in a row are all appended
to the accumulated text, yet the fragment at position 2 produces no output
either (the counter counts emissions, not positions), refuting the claim
that every fragment from position 2 onward is emitted. -/
theorem C3_counterexample :
    (feedEvents initSt (List.map mkTextEvent ["\n", "\n", "\n"])).response = "\n\n\n" ∧
    (feedEvents initSt (List.map mkTextEvent ["\n", "\n", "\n"])).emitted = [] :=
  ⟨rfl, rfl⟩

/-- C3, amended: the full text is always appended; a fragment is suppressed
exactly when fewer than two fragments have been emitted before it and it
contains a newline, and the number of prior emissions is at most the
fragment position — so positions 0 and 1 with a newline are always
suppressed, and a fragment from position 2 onward is emitted unless fewer
than two prior fragments were emitted and it contains a newline. -/
theorem C3_amended_thm (pre post : List String) (s : String) :
    (feedEvents initSt (List.map mkTextEvent (pre ++ s :: post))).response
        = strConcat (pre ++ s :: post) ∧
    (feedEvents initSt (List.map mkTextEvent (pre ++ s :: post))).emitted
        = emitFold 0 pre ++ (if counterAfter 0 pre < 2 ∧ hasNewline s = true
            then emitFold (counterAfter 0 pre) post
            else s :: emitFold (counterAfter 0 pre + 1) post) ∧
    counterAfter 0 pre ≤ pre.length := by
  have hf := feedText (pre ++ s :: post) initSt rfl rfl
  refine ⟨?_, ?_, ?_⟩
  · rw [hf.2.1, show initSt.response = "" from rfl, String.empty_append]
  · rw [hf.1, show initSt.emitted = [] from rfl, List.nil_append,
      show initSt.counter = 0 from rfl, emitFold_append, emitFold_cons]
  · simpa using counterAfter_le 0 pre

/-- C4, counterexample: a malformed payload errors the stream, but the
handler keeps receiving events, and a subsequent "[DONE]" still invokes the
completion callback — refuting the claim that the callback is never invoked
for a stream with a malformed pre-sentinel payload. -/
theorem C4_counterexample :
    (feedEvents initSt [SSEEvent.mk "event" (Payload.malformed "\x7bnot valid"), doneEv]).ctrl
        = CtrlState.errored ∧
    (feedEvents initSt [SSEEvent.mk "event" (Payload.malformed "\x7bnot valid"),
        doneEv]).loggerCalls.length = 1 :=
  ⟨rfl, rfl⟩

/-- C4, amended: a malformed non-sentinel payload processed in the
streaming state errors the output sequence and changes nothing else (no
text appended, nothing emitted, no callback), and the callback also stays
un-invoked over any continuation that contains no sentinel; a later
sentinel, however, does invoke it (see the counterexample). -/
theorem C4_amended_thm (evs rest : List SSEEvent) (bad : String)
    (h : (feedEvents initSt evs).ctrl = CtrlState.readable)
    (hrest : ∀ e ∈ rest, ¬ (e.type = "event" ∧ e.data = Payload.done)) :
    onParse (feedEvents initSt evs) (SSEEvent.mk "event" (Payload.malformed bad))
        = { feedEvents initSt evs with ctrl := CtrlState.errored } ∧
    (feedEvents initSt (evs ++ SSEEvent.mk "event" (Payload.malformed bad) :: rest)).loggerCalls
        = [] ∧
    (feedEvents initSt (evs ++ SSEEvent.mk "event" (Payload.malformed bad) :: rest)).emitted
        = (feedEvents initSt evs).emitted := by
  obtain ⟨hlog, hab⟩ := feed_initSt_readable evs h
  have hstep : onParse (feedEvents initSt evs) (SSEEvent.mk "event" (Payload.malformed bad))
      = { feedEvents initSt evs with ctrl := CtrlState.errored } := by
    rw [onParse_malformed _ bad hab, ctrlError_of_readable _ h]
  have hsplit : evs ++ SSEEvent.mk "event" (Payload.malformed bad) :: rest
      = (evs ++ [SSEEvent.mk "event" (Payload.malformed bad)]) ++ rest := by
    rw [List.append_assoc, List.singleton_append]
  refine ⟨hstep, ?_, ?_⟩
  · rw [hsplit, feed_append, feed_append, feed_one, hstep, feed_logger_nodone _ rest hrest]
    simpa using hlog
  · rw [hsplit, feed_append, feed_append, feed_one, hstep,
      (feed_nonreadable _ rest (by simp)).2]

/-- C4, witness: one malformed event followed by one ordinary fragment
event errors the stream and never invokes the callback. -/
theorem C4_amended_witness :
    onParse initSt (SSEEvent.mk "event" (Payload.malformed "oops"))
        = { initSt with ctrl := CtrlState.errored } ∧
    (feedEvents initSt (SSEEvent.mk "event" (Payload.malformed "oops")
        :: [mkTextEvent "x"])).loggerCalls = [] := by
  have h := C4_amended_thm [] [mkTextEvent "x"] "oops" rfl (by
    intro e he
    rw [List.mem_singleton] at he
    subst he
    simp [mkTextEvent])
  exact ⟨h.1, h.2.1⟩

/-- C5: at every point of a stream the accumulated response text equals the
concatenation, in arrival order, of the fragments extracted from every
successfully parsed non-sentinel event that was delivered to the handler —
including the fragments the display-suppression policy withheld. -/
theorem C5_thm (evs : List SSEEvent) :
    (feedEvents initSt evs).response = strConcat (fragsOf (procEvents initSt evs)) := by
  rw [feed_resp evs initSt, show initSt.response = "" from rfl, String.empty_append]

/-- C6: for a valid JSON payload whose choices[0] is an object, extraction
never throws; a missing delta field, or a delta object with no content,
yields the empty fragment and the event is handled without entering the
error state (the empty fragment is even enqueued, bumping the counter); a
string content is appended verbatim and the controller stays readable. -/
theorem C6_thm (st : St) (jflds dflds : List (String × Json)) (restCh : List Json)
    (hab : st.aborted = false) (hc : st.ctrl = CtrlState.readable)
    (hch : lookupField jflds "choices" = some (Json.arr (Json.obj dflds :: restCh))) :
    (∃ v, extractContent (Json.obj jflds) = Except.ok v) ∧
    (lookupField dflds "delta" = none →
      onParse st (SSEEvent.mk "event" (Payload.json (Json.obj jflds)))
        = { st with data := Json.obj jflds, emitted := st.emitted ++ [""], counter := st.counter + 1 }) ∧
    (∀ cflds, lookupField dflds "delta" = some (Json.obj cflds) →
        lookupField cflds "content" = none →
      onParse st (SSEEvent.mk "event" (Payload.json (Json.obj jflds)))
        = { st with data := Json.obj jflds, emitted := st.emitted ++ [""], counter := st.counter + 1 }) ∧
    (∀ cflds s, lookupField dflds "delta" = some (Json.obj cflds) →
        lookupField cflds "content" = some (Json.str s) →
      ∃ st2, onParse st (SSEEvent.mk "event" (Payload.json (Json.obj jflds))) = st2 ∧
        st2.response = st.response ++ s ∧ st2.ctrl = CtrlState.readable ∧
        st2.loggerCalls = st.loggerCalls) := by
  have hex := extractContent_of_choices jflds dflds restCh hch
  have hemptyFrag : ∀ hex2 : extractContent (Json.obj jflds) = Except.ok JSVal.undef,
      onParse st (SSEEvent.mk "event" (Payload.json (Json.obj jflds)))
        = { st with data := Json.obj jflds, emitted := st.emitted ++ [""], counter := st.counter + 1 } := by
    intro hex2
    rw [onParse_json st _ hab, jsonStep_of_str st _ JSVal.undef "" hex2 rfl]
    have hni : ¬ (st.counter < 2 ∧ hasNewline "" = true) := by simp [hasNewline]
    rw [if_neg hni,
      emitStep_of_readable ({ st with response := st.response ++ "", data := Json.obj jflds }) "" hc]
    simp [String.append_empty]
  refine ⟨⟨_, hex⟩, ?_, ?_, ?_⟩
  · intro hdel
    refine hemptyFrag ?_
    rw [hex]
    simp [jsGetOwn, hdel, jsOptField]
  · intro cflds hdel hcont
    refine hemptyFrag ?_
    rw [hex]
    simp [jsGetOwn, hdel, jsOptField, hcont]
  · intro cflds s hdel hcont
    have hex2 : extractContent (Json.obj jflds) = Except.ok (JSVal.val (Json.str s)) := by
      rw [hex]
      simp [jsGetOwn, hdel, jsOptField, hcont]
    rw [onParse_json st _ hab, jsonStep_of_str st _ _ s hex2 (textOf_str s)]
    by_cases hcase : st.counter < 2 ∧ hasNewline s = true
    · rw [if_pos hcase]
      exact ⟨_, rfl, rfl, hc, rfl⟩
    · rw [if_neg hcase,
        emitStep_of_readable ({ st with response := st.response ++ s, data := Json.obj jflds }) s hc]
      exact ⟨_, rfl, rfl, hc, rfl⟩

/-- C6, witness: the payload with choices[0] = an empty object (no delta
field) yields the empty fragment without erroring, and the empty fragment
is enqueued. -/
theorem C6_witness :
    onParse initSt (SSEEvent.mk "event" (Payload.json (Json.obj [("choices", Json.arr [Json.obj []])])))
      = { initSt with data := Json.obj [("choices", Json.arr [Json.obj []])], emitted := [""], counter := 1 } := by
  have h := C6_thm initSt [("choices", Json.arr [Json.obj []])] [] [] rfl rfl rfl
  exact h.2.1 rfl

/-- C7, counterexample: a streaming invocation whose event stream errors
before any sentinel (one malformed payload) never invokes the logging
collaborator, refuting "invoked exactly once per invocation". -/
theorem C7_counterexample :
    (mkLogRecords "p" "m" "s"
      (feedEvents initSt [SSEEvent.mk "event" (Payload.malformed "oops")]).loggerCalls).length
      = 0 := rfl

/-- C7, amended: in non-streaming mode with a well-formed response the
collaborator receives (prompt, model, system, trimmed response, raw data)
exactly once, whether or not code mode is on; in streaming mode it receives
(prompt, model, system, accumulated text, last metadata) exactly once when
every event before the single sentinel is handled benignly; and it is never
invoked when the stream carries no sentinel at all. -/
theorem C7_amended_thm (p m sys : String) (flds cflds mflds : List (String × Json))
    (restCh : List Json) (s : String) (evsGood evsND : List SSEEvent)
    (h1 : lookupField flds "choices" = some (Json.arr (Json.obj cflds :: restCh)))
    (h2 : lookupField cflds "message" = some (Json.obj mflds))
    (h3 : lookupField mflds "content" = some (Json.str s))
    (hg : ∀ e ∈ evsGood, benign e = true)
    (hn : ∀ e ∈ evsND, ¬ (e.type = "event" ∧ e.data = Payload.done)) :
    mkLogRecords p m sys (nonStreamingRun false (Json.obj flds)).1
        = [(p, m, sys, jsTrim s, Json.obj flds)] ∧
    mkLogRecords p m sys (nonStreamingRun true (Json.obj flds)).1
        = [(p, m, sys, jsTrim s, Json.obj flds)] ∧
    mkLogRecords p m sys (feedEvents initSt (evsGood ++ [doneEv])).loggerCalls
        = [(p, m, sys, (feedEvents initSt evsGood).response,
            (feedEvents initSt evsGood).data)] ∧
    mkLogRecords p m sys (feedEvents initSt evsND).loggerCalls = [] := by
  have hmc := messageContent_of flds cflds mflds restCh s h1 h2 h3
  obtain ⟨hcr, habr, hlogr⟩ := feed_benign evsGood initSt hg rfl rfl
  refine ⟨?_, ?_, ?_, ?_⟩
  · unfold nonStreamingRun
    rw [hmc]
    simp [mkLogRecords]
  · unfold nonStreamingRun
    rw [hmc]
    dsimp only
    cases hum : unwrapMarkdown (jsTrim s) <;> simp [mkLogRecords]
  · rw [feed_append, feed_one, onParse_done _ habr, doneStep_of_readable _ hcr]
    rw [show (feedEvents initSt evsGood).loggerCalls = [] from hlogr]
    simp [mkLogRecords]
  · rw [feed_logger_nodone initSt evsND hn]
    simp [mkLogRecords, initSt]

/-- C7, witness: a concrete non-streaming invocation logs exactly one
record with the trimmed response. -/
theorem C7_amended_witness :
    mkLogRecords "p" "m" "sys"
        (nonStreamingRun false (Json.obj [("choices", Json.arr [Json.obj [("message",
          Json.obj [("content", Json.str " hi ")])]])])).1
      = [("p", "m", "sys", "hi", Json.obj [("choices", Json.arr [Json.obj [("message",
          Json.obj [("content", Json.str " hi ")])]])])] := by
  have h := C7_amended_thm "p" "m" "sys"
    [("choices", Json.arr [Json.obj [("message", Json.obj [("content", Json.str " hi ")])]])]
    [("message", Json.obj [("content", Json.str " hi ")])]
    [("content", Json.str " hi ")] [] " hi " [mkTextEvent "a"] [mkTextEvent "b"]
    rfl rfl rfl
    (by
      intro e he
      rw [List.mem_singleton] at he
      subst he
      rfl)
    (by
      intro e he
      rw [List.mem_singleton] at he
      subst he
      simp [mkTextEvent])
  exact h.1

/-- C8: the end-to-end scenario — the payloads carrying "Hello" and
" world" followed by the sentinel — emits output concatenating to
"Hello world", and the completion callback receives the response text
"Hello world" (with the last parsed payload as metadata). -/
theorem C8_thm :
    strConcat (feedEvents initSt [mkTextEvent "Hello", mkTextEvent " world",
        doneEv]).emitted = "Hello world" ∧
    (feedEvents initSt [mkTextEvent "Hello", mkTextEvent " world", doneEv]).loggerCalls
      = [("Hello world", textJson " world")] :=
  ⟨rfl, rfl⟩

/-- C9, counterexample: after a valid JSON payload with no choices array
errors the stream, a later sentinel still invokes the completion callback;
and a payload whose choices field is a nonempty string is handled as an
empty fragment (enqueued, counter bumped) instead of erroring — refuting
both the "callback is never invoked" part and the unconditional
"lacks a choices array implies error" reading. -/
theorem C9_counterexample :
    (feedEvents initSt [SSEEvent.mk "event" (Payload.json (Json.obj [])),
        doneEv]).loggerCalls.length = 1 ∧
    onParse initSt (SSEEvent.mk "event" (Payload.json (Json.obj [("choices", Json.str "ab")])))
      = { initSt with data := Json.obj [("choices", Json.str "ab")], emitted := [""], counter := 1 } :=
  ⟨rfl, rfl⟩

/-- C9, amended: a valid JSON payload whose object has no choices field, or
whose choices field is an empty array, makes the extraction throw: the
reducer errors the output sequence and changes nothing else — in particular
it does not treat the event as an empty fragment and the callback is not
invoked by it, nor by any later non-sentinel event (a later sentinel does
invoke it, as the counterexample shows). -/
theorem C9_amended_thm (st : St) (jflds : List (String × Json))
    (hab : st.aborted = false) (hc : st.ctrl = CtrlState.readable)
    (hj : lookupField jflds "choices" = none ∨
          lookupField jflds "choices" = some (Json.arr [])) :
    onParse st (SSEEvent.mk "event" (Payload.json (Json.obj jflds)))
        = { st with ctrl := CtrlState.errored } ∧
    ∀ rest : List SSEEvent, (∀ e ∈ rest, ¬ (e.type = "event" ∧ e.data = Payload.done)) →
      (feedEvents (onParse st (SSEEvent.mk "event" (Payload.json (Json.obj jflds)))) rest).loggerCalls
        = st.loggerCalls := by
  have hex : extractContent (Json.obj jflds) = Except.error () := by
    rcases hj with hj | hj
    · exact extractContent_no_choices jflds hj
    · exact extractContent_empty_choices jflds hj
  have hstep : onParse st (SSEEvent.mk "event" (Payload.json (Json.obj jflds)))
      = { st with ctrl := CtrlState.errored } := by
    rw [onParse_json st _ hab]
    unfold jsonStep
    rw [hex]
    exact ctrlError_of_readable st hc
  refine ⟨hstep, ?_⟩
  intro rest hnd
  rw [hstep, feed_logger_nodone _ rest hnd]

/-- C9, witness: the payload `{}` (valid JSON, no choices) errors the
stream from the initial state. -/
theorem C9_amended_witness :
    onParse initSt (SSEEvent.mk "event" (Payload.json (Json.obj [])))
      = { initSt with ctrl := CtrlState.errored } :=
  (C9_amended_thm initSt [] rfl rfl (Or.inl rfl)).1

/-- C10: in non-streaming mode the response is choices[0].message.content
with the JS trim applied: that trimmed string is what the logger records
and (in plain mode) what is displayed, code mode logs the same trimmed
string, and the trimmed string carries no leading or trailing white space. -/
theorem C10_thm (flds cflds mflds : List (String × Json)) (restCh : List Json) (s : String)
    (h1 : lookupField flds "choices" = some (Json.arr (Json.obj cflds :: restCh)))
    (h2 : lookupField cflds "message" = some (Json.obj mflds))
    (h3 : lookupField mflds "content" = some (Json.str s)) :
    messageContent (Json.obj flds) = Except.ok (jsTrim s) ∧
    nonStreamingRun false (Json.obj flds)
        = ([(jsTrim s, Json.obj flds)], Except.ok (jsTrim s)) ∧
    (nonStreamingRun true (Json.obj flds)).1 = [(jsTrim s, Json.obj flds)] ∧
    (∀ c, (jsTrim s).data.head? = some c → jsIsWhitespace c = false) ∧
    (∀ c, (jsTrim s).data.getLast? = some c → jsIsWhitespace c = false) := by
  have hmc := messageContent_of flds cflds mflds restCh s h1 h2 h3
  refine ⟨hmc, ?_, ?_, ?_, ?_⟩
  · unfold nonStreamingRun
    rw [hmc]
    rfl
  · unfold nonStreamingRun
    rw [hmc]
    dsimp only
    cases hum : unwrapMarkdown (jsTrim s) <;> simp
  · intro c hcH
    exact jsTrim_head s c hcH
  · intro c hcL
    exact jsTrim_last s c hcL

/-- C10, witness: content "  hi  " is logged and displayed as "hi". -/
theorem C10_witness :
    nonStreamingRun false (Json.obj [("choices", Json.arr [Json.obj [("message",
        Json.obj [("content", Json.str "  hi  ")])]])])
      = ([("hi", Json.obj [("choices", Json.arr [Json.obj [("message",
          Json.obj [("content", Json.str "  hi  ")])]])])], Except.ok "hi") := by
  have h := C10_thm
    [("choices", Json.arr [Json.obj [("message", Json.obj [("content", Json.str "  hi  ")])]])]
    [("message", Json.obj [("content", Json.str "  hi  ")])]
    [("content", Json.str "  hi  ")] [] "  hi  " rfl rfl rfl
  exact h.2.1

end LlmCli
